import Mathlib

/-!
Shallow embedding of the xplode game-coordination server core.

The definitions below are translated from the Rust sources:
  * `src/server/src/board.rs`      — `CellState`, `Board`, `Board.mine`
  * `src/server/src/seed_gen.rs`   — `get_bomb_coords` (the sampling loop)
  * `src/server/src/game.rs`       — `GameState`, the per-message handler arms
    of `GameServer::handle_connection` and `GameRegistry::handle_play_message`
  * `src/server/src/discovery.rs`  — `DiscoveryService::register_game_session`,
    `update_player_count` (modelled as the list of Redis commands they issue)
  * `src/common/src/db.rs`         — `update_player_balances`

Machine floats (`f64` stakes and balances) are modelled as rationals; the
random number generator is modelled as an explicit stream of draws; the
Redis / Postgres side effects are modelled as explicit command or
settlement values carried in an `Effects` record.
-/

namespace Xplode

/-- Cell states of the board grid (board.rs `CellState`): `Mined` is a
revealed safe cell, `Hidden` an untouched cell, `Bomb` a revealed hazard. -/
inductive CellState where
  | Mined
  | Hidden
  | Bomb
deriving DecidableEq, Repr

/-- The playfield (board.rs `Board`): edge length `n`, an `n × n` grid of
cells, and the linearized hazard positions (`bomb_coordinates`). -/
structure Board where
  n : Nat
  grid : List (List CellState)
  bomb_coordinates : List Nat
deriving DecidableEq, Repr

/-- Write value `v` at row `x`, column `y` of a grid; out-of-range indices
leave the grid unchanged (the Rust code would panic there instead). -/
def setCell : List (List CellState) → Nat → Nat → CellState → List (List CellState)
  | [], _, _, _ => []
  | row :: rest, 0, y, v => row.set y v :: rest
  | row :: rest, Nat.succ x, y, v => row :: setCell rest x y v

/-- board.rs `Board::mine`: reveal cell `(x, y)`.  The position `x*n + y`
is looked up in `bomb_coordinates`; a hazard cell is set to `Bomb` and the
call returns `true` (HIT), any other cell is set to `Mined` and the call
returns `false` (SAFE).  The current state of the cell is never consulted. -/
def Board.mine (b : Board) (x y : Nat) : Board × Bool :=
  let position := x * b.n + y
  if position ∈ b.bomb_coordinates then
    ({ b with grid := setCell b.grid x y CellState.Bomb }, true)
  else
    ({ b with grid := setCell b.grid x y CellState.Mined }, false)

/-- Fresh board with every cell hidden (board.rs `Board::new`), with the
randomly drawn hazard coordinates passed in explicitly. -/
def Board.new (n : Nat) (coords : List Nat) : Board :=
  { n := n
    grid := List.replicate n (List.replicate n CellState.Hidden)
    bomb_coordinates := coords }

/-- Player record as used by game.rs (`Player::new(player_id, name)`,
field `id` read by the handlers): a stable identity plus a display name. -/
structure Player where
  id : String
  name : String
deriving DecidableEq, Repr

/-- game.rs `GameState`: the tagged session variant. -/
inductive GameState where
  | WAITING (game_id : String) (creator : Player) (board : Board)
      (single_bet_size : ℚ) (min_players : Nat) (players : List Player)
  | RUNNING (game_id : String) (players : List Player) (board : Board)
      (turn_idx : Nat) (single_bet_size : ℚ) (locks : Option (List (Nat × Nat)))
  | FINISHED (game_id : String) (loser_idx : Nat) (board : Board)
      (players : List Player) (single_bet_size : ℚ)
  | REMATCH (game_id : String) (players : List Player) (board : Board)
      (single_bet_size : ℚ) (accepted : List Nat)
  | ABORTED (game_id : String)
deriving DecidableEq, Repr

/-- Whether a session is in the RUNNING variant. -/
def GameState.isRunning : GameState → Bool
  | .RUNNING _ _ _ _ _ _ => true
  | _ => false

/-- One invocation of the settlement interface
(`db::update_player_balances(pool, user_ids, loser_idx, single_bet_size,
winning_amount, currency)` in game.rs; the ids are kept as the player-id
strings that the code parses to integers). -/
structure Settlement where
  user_ids : List String
  loser_idx : Nat
  single_bet_size : ℚ
  winning_amount : ℚ
deriving DecidableEq, Repr

/-- Observable side effects of one handler arm of
`GameServer::handle_connection`: `Error` replies sent to the requester
only, `GameUpdate` broadcasts published on the session fan-out channel,
settlement invocations, player ids removed from `active_players`, and
game ids removed from the discovery directory. -/
structure Effects where
  errors : List String := []
  broadcasts : List GameState := []
  settlements : List Settlement := []
  activeRemovals : List String := []
  dirRemovals : List String := []
deriving DecidableEq, Repr

/-- The winners' share computed by the FINISHED paths in game.rs:
`single_bet_size / ((players.len() - 1) as f64)`. -/
def winningAmount (single_bet_size : ℚ) (numPlayers : Nat) : ℚ :=
  single_bet_size / ((numPlayers - 1 : Nat) : ℚ)

/-- `active_players_write.retain(|x, _| !ids.contains(x))`: drop every
active-player entry whose player id is listed in `ids`. -/
def applyRetain (active : List (String × String)) (ids : List String) :
    List (String × String) :=
  active.filter (fun e => ¬ e.1 ∈ ids)

/-- Append a player to a WAITING session and transition to RUNNING iff the
roster reaches `min_players` (shared logic of the `Join` arm and
`GameRegistry::handle_play_message`); the RUNNING transition also removes
the session from the discovery directory.  Any other variant is left
untouched (the code answers with a redirect or error instead). -/
def joinGame (p : Player) (s : GameState) : GameState × Effects :=
  match s with
  | .WAITING gid creator board sbs minp players =>
    let players2 := players ++ [p]
    if players2.length < minp then
      let s2 := GameState.WAITING gid creator board sbs minp players2
      (s2, { broadcasts := [s2] })
    else
      let s2 := GameState.RUNNING gid players2 board 0 sbs none
      (s2, { broadcasts := [s2], dirRemovals := [gid] })
  | _ => (s, {})

/-- The `MakeMove` arm on an existing session.  On RUNNING it reveals the
cell: a HIT produces the FINISHED state with `loser_idx = turn_idx`,
removes all participants from `active_players`, removes the directory
entry and invokes settlement; a SAFE reveal clears `locks` and leaves
every other field unchanged.  Both outcomes are broadcast.  On any other
variant a single error reply is sent and nothing changes. -/
def makeMove (gid : String) (x y : Nat) (s : GameState) : GameState × Effects :=
  match s with
  | .RUNNING g players board turn_idx sbs _ =>
    let res := board.mine x y
    if res.2 then
      let fin := GameState.FINISHED gid turn_idx res.1 players sbs
      (fin, { broadcasts := [fin]
              settlements := [⟨players.map Player.id, turn_idx, sbs,
                               winningAmount sbs players.length⟩]
              activeRemovals := players.map Player.id
              dirRemovals := [gid] })
    else
      let run := GameState.RUNNING g players res.1 turn_idx sbs none
      (run, { broadcasts := [run] })
  | _ => (s, { errors := ["Cannot make move in current game state"] })

/-- The `Lock` arm on an existing session: on RUNNING the pair `(x, y)` is
appended to `locks`; in every case the (possibly unchanged) stored state
is broadcast and no error is sent. -/
def lockMove (x y : Nat) (s : GameState) : GameState × Effects :=
  match s with
  | .RUNNING g players board t sbs locks =>
    let s2 := GameState.RUNNING g players board t sbs (some (locks.getD [] ++ [(x, y)]))
    (s2, { broadcasts := [s2] })
  | _ => (s, { broadcasts := [s] })

/-- The `LockComplete` arm on an existing session: on RUNNING the turn
index advances modulo the roster size; in every case the (possibly
unchanged) stored state is broadcast and no error is sent. -/
def lockComplete (s : GameState) : GameState × Effects :=
  match s with
  | .RUNNING g players board t sbs locks =>
    let s2 := GameState.RUNNING g players board ((t + 1) % players.length) sbs locks
    (s2, { broadcasts := [s2] })
  | _ => (s, { broadcasts := [s] })

/-- The `Stop { abort: false }` arm on an existing session: a RUNNING
session becomes FINISHED with `loser_idx = turn_idx`, all participants are
removed from `active_players`, the directory entry is removed, settlement
is invoked once and the FINISHED state is broadcast.  Other variants are
untouched (no reply of any kind). -/
def stopNoAbort (gid : String) (s : GameState) : GameState × Effects :=
  match s with
  | .RUNNING _ players board turn_idx sbs _ =>
    let fin := GameState.FINISHED gid turn_idx board players sbs
    (fin, { broadcasts := [fin]
            settlements := [⟨players.map Player.id, turn_idx, sbs,
                             winningAmount sbs players.length⟩]
            activeRemovals := players.map Player.id
            dirRemovals := [gid] })
  | _ => (s, {})

/-- The `Stop { abort: true }` arm on an existing session: the stored
state becomes ABORTED; RUNNING and WAITING participants are removed from
`active_players`; the directory entry is removed; ABORTED is broadcast. -/
def stopAbort (gid : String) (s : GameState) : GameState × Effects :=
  let removals : List String :=
    match s with
    | .RUNNING _ players _ _ _ _ => players.map Player.id
    | .WAITING _ _ _ _ _ players => players.map Player.id
    | _ => []
  (GameState.ABORTED gid,
   { broadcasts := [GameState.ABORTED gid]
     activeRemovals := removals
     dirRemovals := [gid] })

/-- The `RematchRequest` arm on an existing session: on FINISHED, a fresh
board (passed in explicitly, drawn with the same `n` and hazard count) is
installed, the state becomes REMATCH with the `accepted` vector set only
at the requester's index, and a rematch-request message is fanned out
(modelled here by its effects on the stored state only).  If the requester
is not on the roster the code panics before mutating, so the stored state
is unchanged; other variants are untouched. -/
def rematchRequest (requester : String) (newBoard : Board) (s : GameState) :
    GameState × Effects :=
  match s with
  | .FINISHED g _ _ players sbs =>
    match players.enum.find? (fun ip => ip.2.id = requester) with
    | some ip =>
      let accepted := (List.replicate players.length 0).set ip.1 1
      (GameState.REMATCH g players newBoard sbs accepted, {})
    | none => (s, {})
  | _ => (s, {})

/-- The `RematchResponse` arm on an existing session.  On REMATCH with
`want_rematch = true` the voter's `accepted` slot is set; when every slot
is set the stored state becomes RUNNING with `turn_idx = 0` and empty
locks, and is broadcast.  With `want_rematch = false` the code builds an
ABORTED value and broadcasts it but never assigns it to the stored
session, which therefore remains in REMATCH.  A voter missing from the
roster panics before mutating; other variants are untouched. -/
def rematchResponse (player_id : String) (want_rematch : Bool) (s : GameState) :
    GameState × Effects :=
  match s with
  | .REMATCH gid players board sbs accepted =>
    if want_rematch then
      match players.enum.find? (fun ip => ip.2.id = player_id) with
      | some ip =>
        let accepted2 := accepted.set ip.1 1
        if accepted2.all (fun a => a = 1) then
          let run := GameState.RUNNING gid players board 0 sbs none
          (run, { broadcasts := [run] })
        else
          (GameState.REMATCH gid players board sbs accepted2, {})
      | none => (s, {})
    else
      (s, { broadcasts := [GameState.ABORTED gid] })
  | _ => (s, {})

/-- Record of one `game_pnl` journal row written by
`db::record_game_result_tx`. -/
structure PnlRow where
  user_id : String
  profit : ℚ
deriving DecidableEq, Repr

/-- Sequential body of `db::update_player_balances` in common/src/db.rs:
for the `i`-th user (`i` starting at the given offset) the balance moves
by `-single_bet_size` when `i` equals `loser_idx` and by `winning_amount`
otherwise, and one PnL row per user is journalled. -/
def upbAux (loser_idx : Nat) (single_bet_size winning_amount : ℚ) :
    List String → Nat → (String → ℚ) → (String → ℚ) × List PnlRow
  | [], _, bal => (bal, [])
  | uid :: rest, i, bal =>
    let profit := if i = loser_idx then -single_bet_size else winning_amount
    let bal2 := fun u => if u = uid then bal u + profit else bal u
    let res := upbAux loser_idx single_bet_size winning_amount rest (i + 1) bal2
    (res.1, ⟨uid, profit⟩ :: res.2)

/-- common/src/db.rs `update_player_balances`: walk the user ids in order,
debit the loser by the stake, credit everyone else with the winning
share, and record one PnL row per user.  Balances are modelled as a map
from user id to rational balance. -/
def update_player_balances (bal : String → ℚ) (user_ids : List String)
    (loser_idx : Nat) (single_bet_size winning_amount : ℚ) :
    (String → ℚ) × List PnlRow :=
  upbAux loser_idx single_bet_size winning_amount user_ids 0 bal

/-- The inbound `GameMessage::GameUpdate(msg)` arm of
`GameServer::handle_connection` in game.rs: the carried state is
rebroadcast on its own game's fan-out; for a FINISHED payload the player
ids listed in the message are removed from `active_players` and
settlement is invoked with the `loser_idx` and stake carried in the
message; a REMATCH payload falls through with no effect.  The stored
sessions map is never read or written. -/
def handleInboundGameUpdate (msg : GameState) : Effects :=
  match msg with
  | .RUNNING _ _ _ _ _ _ => { broadcasts := [msg] }
  | .FINISHED _ loser_idx _ players sbs =>
    { broadcasts := [msg]
      settlements := [⟨players.map Player.id, loser_idx, sbs,
                       winningAmount sbs players.length⟩]
      activeRemovals := players.map Player.id }
  | .ABORTED _ => { broadcasts := [msg] }
  | .WAITING _ _ _ _ _ _ => { broadcasts := [msg] }
  | _ => {}

/-- The GameUpdate arm at registry level: the games map is returned
untouched alongside the effects computed from the message alone. -/
def gameUpdateArm (games : List (String × GameState)) (msg : GameState) :
    List (String × GameState) × Effects :=
  (games, handleInboundGameUpdate msg)

/-- The disconnect teardown in game.rs (end of the inbound read loop): if
the closing player is bound to a locally stored RUNNING session, a
synthetic FINISHED with `loser_idx` = the player's roster index is built
from the stored session and injected as an inbound `GameUpdate` on the
same channel the client messages use; otherwise nothing is sent. -/
def disconnectTeardownMsg (player_id : String) (s : GameState) : Option GameState :=
  match s with
  | .RUNNING gid players board _ sbs _ =>
    (players.enum.find? (fun ip => ip.2.id = player_id)).map
      (fun ip => GameState.FINISHED gid ip.1 board players sbs)
  | _ => none

/-- Redis commands issued by the discovery service
(src/server/src/discovery.rs), as written into the pipeline. -/
inductive RedisCmd where
  | hsetMultiple (key : String) (fields : List (String × String))
  | sadd (key : String) (member : String)
  | expire (key : String) (seconds : Nat)
  | hset (key : String) (field : String) (value : String)
deriving DecidableEq, Repr

/-- Whether a Redis command sets a TTL. -/
def RedisCmd.isExpire : RedisCmd → Bool
  | .expire _ _ => true
  | _ => false

/-- The session advertisement (discovery.rs `GameSession`): game id, the
owning region and server, the stake, the roster target and the current
roster size.  The stake is carried pre-rendered as the string the Rust
code obtains from formatting the `f64`. -/
structure SessionAd where
  game_id : String
  region : String
  server_id : String
  single_bet_size : String
  min_players : Nat
  current_players : Nat
deriving DecidableEq, Repr

/-- discovery.rs `DiscoveryService::register_game_session`: one pipeline
writing the `game_session:<id>` hash (fields region, server_id,
single_bet_size, min_players, current_players), adding the game id to the
regional `region_matchmaking:<region>:<stake>:<min_players>` set and to
the global `matchmaking:<stake>:<min_players>` set, and setting a
300-second TTL on the hash. -/
def register_game_session (s : SessionAd) : List RedisCmd :=
  [ RedisCmd.hsetMultiple ("game_session:" ++ s.game_id)
      [("region", s.region), ("server_id", s.server_id),
       ("single_bet_size", s.single_bet_size),
       ("min_players", toString s.min_players),
       ("current_players", toString s.current_players)],
    RedisCmd.sadd ("region_matchmaking:" ++ s.region ++ ":" ++
      s.single_bet_size ++ ":" ++ toString s.min_players) s.game_id,
    RedisCmd.sadd ("matchmaking:" ++ s.single_bet_size ++ ":" ++
      toString s.min_players) s.game_id,
    RedisCmd.expire ("game_session:" ++ s.game_id) 300 ]

/-- discovery.rs `DiscoveryService::update_player_count`: a single bare
`HSET` of the `current_players` field, with no TTL command. -/
def update_player_count (game_id : String) (current_players : Nat) : List RedisCmd :=
  [ RedisCmd.hset ("game_session:" ++ game_id) "current_players"
      (toString current_players) ]

/-- The sampling loop of seed_gen.rs `get_bomb_coords`: while fewer than
`bombs_needed` distinct coordinates are held, draw the next value from
the RNG stream and insert it modulo `dimension * dimension`.  The stream
is modelled as a finite list of draws; `none` means the loop was still
running when the supplied draws ran out. -/
def bombLoop (bombs_needed dimension : Nat) :
    List Nat → Finset Nat → Option (Finset Nat)
  | [], coords => if bombs_needed ≤ coords.card then some coords else none
  | d :: rest, coords =>
    if bombs_needed ≤ coords.card then some coords
    else bombLoop bombs_needed dimension rest (insert (d % (dimension * dimension)) coords)

/-- seed_gen.rs `get_bomb_coords(bombs_needed, dimension)` with the RNG
output stream passed explicitly, starting from the empty set. -/
def get_bomb_coords (bombs_needed dimension : Nat) (draws : List Nat) :
    Option (Finset Nat) :=
  bombLoop bombs_needed dimension draws ∅

/-- `GameRegistry::cleanup_player` on one stored session: a WAITING
session whose creator is the disconnecting player is overwritten with
ABORTED (and its directory entry removed); every other session is left
alone by this function. -/
def cleanupWaiting (gid player_id : String) (s : GameState) : GameState :=
  match s with
  | .WAITING _ creator _ _ _ _ =>
    if creator.id = player_id then GameState.ABORTED gid else s
  | _ => s

/-- One mutation of a stored session by any handler arm of the connection
loop (each constructor applies one arm to the session it addresses). -/
inductive Step : GameState → GameState → Prop where
  | join (p : Player) (s : GameState) : Step s (joinGame p s).1
  | move (gid : String) (x y : Nat) (s : GameState) : Step s (makeMove gid x y s).1
  | lock (x y : Nat) (s : GameState) : Step s (lockMove x y s).1
  | lockC (s : GameState) : Step s (lockComplete s).1
  | stopF (gid : String) (s : GameState) : Step s (stopNoAbort gid s).1
  | stopA (gid : String) (s : GameState) : Step s (stopAbort gid s).1
  | rreq (r : String) (nb : Board) (s : GameState) : Step s (rematchRequest r nb s).1
  | rresp (pid : String) (w : Bool) (s : GameState) : Step s (rematchResponse pid w s).1
  | cleanup (gid pid : String) (s : GameState) : Step s (cleanupWaiting gid pid s)

/-- Reachability through any number of handler steps. -/
def Reach : GameState → GameState → Prop := Relation.ReflTransGen Step

/-- Session invariant tied to the originating roster target `m`: a
WAITING session still has room, a RUNNING session has a full roster of
exactly `m` with an in-range turn index, FINISHED and REMATCH keep the
roster of size `m`. -/
def Inv (m : Nat) : GameState → Prop
  | .WAITING _ _ _ _ minp players => minp = m ∧ players.length < minp
  | .RUNNING _ players _ turn_idx _ _ => players.length = m ∧ turn_idx < players.length
  | .FINISHED _ _ _ players _ => players.length = m
  | .REMATCH _ players _ _ _ => players.length = m
  | .ABORTED _ => True

/-- Read cell `(x, y)` of a board, if in range. -/
def cellAt (b : Board) (x y : Nat) : Option CellState :=
  (b.grid.get? x).bind (fun row => row.get? y)

/-- Whether a Redis command writes the named hash field. -/
def cmdMentionsField (f : String) : RedisCmd → Bool
  | .hsetMultiple _ fields => fields.any (fun kv => kv.1 = f)
  | .hset _ field _ => field = f
  | _ => false

/-- The keys of all set-insertion commands in a pipeline, in order. -/
def saddKeys (cmds : List RedisCmd) : List String :=
  cmds.filterMap (fun c => match c with | .sadd k _ => some k | _ => none)

/-- The TTLs set by a pipeline, in order. -/
def expireSeconds (cmds : List RedisCmd) : List Nat :=
  cmds.filterMap (fun c => match c with | .expire _ n => some n | _ => none)

/-- Field names written by the hash-creation commands of a pipeline. -/
def hashFieldNames (cmds : List RedisCmd) : List String :=
  cmds.flatMap (fun c => match c with
    | .hsetMultiple _ fields => fields.map Prod.fst
    | _ => [])

/-- Sample player with id "1". -/
def pl1 : Player := ⟨"1", "A"⟩

/-- Sample player with id "2". -/
def pl2 : Player := ⟨"2", "B"⟩

/-- Sample 2×2 board whose only hazard is cell (1,1) (position 3). -/
def board0 : Board := Board.new 2 [3]

/-- All-zero balance table. -/
def balZero : String → ℚ := fun _ => 0

/-- Sample finished two-player session. -/
def sFin : GameState := GameState.FINISHED "g" 0 board0 [pl1, pl2] 1

/-- Sample rematch session in which only player "1" has accepted. -/
def sRem : GameState := GameState.REMATCH "g" [pl1, pl2] board0 1 [1, 0]

/-- Sample session advertisement with stake string "1" and target 2. -/
def ad0 : SessionAd := ⟨"g1", "rg", "srv1", "1", 2, 1⟩

/-- One-cell board whose single cell is a hazard. -/
def cexBoard : Board := ⟨1, [[CellState.Hidden]], [0]⟩

/-- The same board after its hazard cell has been revealed (state HIT). -/
def cexBoardHit : Board := (cexBoard.mine 0 0).1

theorem stepInv {m : Nat} {s s2 : GameState} (hstep : Step s s2)
    (hinv : Inv m s) : Inv m s2 := by
  cases hstep with
  | join p s =>
    cases s with
    | WAITING gid c b q mp ps =>
      obtain ⟨hm, hlen⟩ := hinv
      simp only [joinGame]
      split
      next hcase =>
        simp only [Inv]
        exact ⟨hm, hcase⟩
      next hcase =>
        simp only [Inv]
        simp only [List.length_append, List.length_singleton, not_lt] at hcase hlen ⊢
        omega
    | RUNNING gid ps b t q l => simpa [joinGame, Inv] using hinv
    | FINISHED gid li b ps q => simpa [joinGame, Inv] using hinv
    | REMATCH gid ps b q a => simpa [joinGame, Inv] using hinv
    | ABORTED gid => simpa [joinGame, Inv] using hinv
  | move gid x y s =>
    cases s with
    | RUNNING gid2 ps b t q l =>
      obtain ⟨hm, ht⟩ := hinv
      by_cases hcase : (b.mine x y).2
      · simpa [makeMove, hcase, Inv] using hm
      · simpa [makeMove, hcase, Inv] using ⟨hm, ht⟩
    | WAITING gid2 c b q mp ps => simpa [makeMove, Inv] using hinv
    | FINISHED gid2 li b ps q => simpa [makeMove, Inv] using hinv
    | REMATCH gid2 ps b q a => simpa [makeMove, Inv] using hinv
    | ABORTED gid2 => simpa [makeMove, Inv] using hinv
  | lock x y s =>
    cases s with
    | RUNNING gid ps b t q l =>
      obtain ⟨hm, ht⟩ := hinv
      simpa [lockMove, Inv] using ⟨hm, ht⟩
    | WAITING gid c b q mp ps => simpa [lockMove, Inv] using hinv
    | FINISHED gid li b ps q => simpa [lockMove, Inv] using hinv
    | REMATCH gid ps b q a => simpa [lockMove, Inv] using hinv
    | ABORTED gid => simpa [lockMove, Inv] using hinv
  | lockC s =>
    cases s with
    | RUNNING gid ps b t q l =>
      obtain ⟨hm, ht⟩ := hinv
      refine ⟨hm, Nat.mod_lt _ ?_⟩
      omega
    | WAITING gid c b q mp ps => simpa [lockComplete, Inv] using hinv
    | FINISHED gid li b ps q => simpa [lockComplete, Inv] using hinv
    | REMATCH gid ps b q a => simpa [lockComplete, Inv] using hinv
    | ABORTED gid => simpa [lockComplete, Inv] using hinv
  | stopF gid s =>
    cases s with
    | RUNNING gid2 ps b t q l =>
      obtain ⟨hm, ht⟩ := hinv
      simpa [stopNoAbort, Inv] using hm
    | WAITING gid2 c b q mp ps => simpa [stopNoAbort, Inv] using hinv
    | FINISHED gid2 li b ps q => simpa [stopNoAbort, Inv] using hinv
    | REMATCH gid2 ps b q a => simpa [stopNoAbort, Inv] using hinv
    | ABORTED gid2 => simpa [stopNoAbort, Inv] using hinv
  | stopA gid s => simp [stopAbort, Inv]
  | rreq r nb s =>
    cases s with
    | FINISHED gid li b ps q =>
      cases hfind : ps.enum.find? (fun ip => ip.2.id = r) with
      | none => simpa [rematchRequest, hfind, Inv] using hinv
      | some ip => simpa [rematchRequest, hfind, Inv] using hinv
    | WAITING gid c b q mp ps => simpa [rematchRequest, Inv] using hinv
    | RUNNING gid ps b t q l => simpa [rematchRequest, Inv] using hinv
    | REMATCH gid ps b q a => simpa [rematchRequest, Inv] using hinv
    | ABORTED gid => simpa [rematchRequest, Inv] using hinv
  | rresp pid w s =>
    cases s with
    | REMATCH gid ps b q a =>
      cases w with
      | false => simpa [rematchResponse, Inv] using hinv
      | true =>
        cases hfind : ps.enum.find? (fun ip => ip.2.id = pid) with
        | none => simpa [rematchResponse, hfind, Inv] using hinv
        | some ip =>
          have hmem : ip ∈ ps.enum := List.mem_of_find?_eq_some hfind
          have hpos : 0 < ps.length := by
            have := List.length_pos.mpr (List.ne_nil_of_mem hmem)
            simpa [List.enum_length] using this
          by_cases hall : (a.set ip.1 1).all (fun x => x = 1)
          · simp only [rematchResponse, hfind, hall, if_true, Inv]
            exact ⟨hinv, by omega⟩
          · simpa [rematchResponse, hfind, hall, Inv] using hinv
    | WAITING gid c b q mp ps => simpa [rematchResponse, Inv] using hinv
    | RUNNING gid ps b t q l => simpa [rematchResponse, Inv] using hinv
    | FINISHED gid li b ps q => simpa [rematchResponse, Inv] using hinv
    | ABORTED gid => simpa [rematchResponse, Inv] using hinv
  | cleanup gid pid s =>
    cases s with
    | WAITING gid2 c b q mp ps =>
      by_cases hcase : c.id = pid
      · simp [cleanupWaiting, hcase, Inv]
      · simpa [cleanupWaiting, hcase, Inv] using hinv
    | RUNNING gid2 ps b t q l => simpa [cleanupWaiting, Inv] using hinv
    | FINISHED gid2 li b ps q => simpa [cleanupWaiting, Inv] using hinv
    | REMATCH gid2 ps b q a => simpa [cleanupWaiting, Inv] using hinv
    | ABORTED gid2 => simpa [cleanupWaiting, Inv] using hinv

theorem reachInv {m : Nat} {s s2 : GameState} (h : Reach s s2)
    (hinv : Inv m s) : Inv m s2 := by
  induction h with
  | refl => exact hinv
  | tail _ hstep ih => exact stepInv hstep ih

theorem setCell_idem (g : List (List CellState)) (x y : Nat) (v : CellState) :
    setCell (setCell g x y v) x y v = setCell g x y v := by
  induction g generalizing x with
  | nil => cases x <;> rfl
  | cons row rest ih =>
    cases x with
    | zero => simp [setCell, List.set_set]
    | succ x2 => simp [setCell, ih]

theorem mine_bombs_eq (b : Board) (x y : Nat) :
    (b.mine x y).1.bomb_coordinates = b.bomb_coordinates ∧ (b.mine x y).1.n = b.n := by
  simp only [Board.mine]
  split <;> simp

theorem upbAux_not_mem (loser : Nat) (s w : ℚ) (ids : List String) (i : Nat)
    (bal : String → ℚ) (u : String) (hu : u ∉ ids) :
    (upbAux loser s w ids i bal).1 u = bal u := by
  induction ids generalizing i bal with
  | nil => rfl
  | cons uid rest ih =>
    have hne : u ≠ uid := fun h => hu (by simp [h])
    have hrest : u ∉ rest := fun h => hu (by simp [h])
    simp only [upbAux]
    rw [ih (i + 1) _ hrest]
    simp [hne]

theorem upbAux_get (loser : Nat) (s w : ℚ) (ids : List String) (hnd : ids.Nodup)
    (i : Nat) (bal : String → ℚ) (j : Nat) (hj : j < ids.length) :
    (upbAux loser s w ids i bal).1 (ids.get ⟨j, hj⟩) =
      bal (ids.get ⟨j, hj⟩) + (if i + j = loser then -s else w) := by
  induction ids generalizing i bal j with
  | nil => simp at hj
  | cons uid rest ih =>
    obtain ⟨hu, hnd2⟩ := List.nodup_cons.mp hnd
    cases j with
    | zero =>
      simp only [upbAux, List.get]
      rw [upbAux_not_mem _ _ _ _ _ _ _ hu]
      simp
    | succ j2 =>
      have hj2 : j2 < rest.length := by simpa using hj
      simp only [upbAux, List.get]
      rw [ih hnd2 (i + 1) _ j2 hj2]
      have hmem : rest.get ⟨j2, hj2⟩ ∈ rest := List.get_mem rest j2 hj2
      have hne : rest.get ⟨j2, hj2⟩ ≠ uid := fun h => hu (h ▸ hmem)
      have hne2 : rest[j2] ≠ uid := by simpa [List.get_eq_getElem] using hne
      have harith : i + 1 + j2 = i + (j2 + 1) := by omega
      simp [hne, hne2, harith]

theorem upbAux_rows (loser : Nat) (s w : ℚ) (ids : List String) (i : Nat)
    (bal : String → ℚ) :
    (upbAux loser s w ids i bal).2.map PnlRow.user_id = ids := by
  induction ids generalizing i bal with
  | nil => rfl
  | cons uid rest ih => simp [upbAux, ih]

theorem bombLoop_card (needed dim : Nat) (draws : List Nat) (coords : Finset Nat)
    (hle : coords.card ≤ needed) (res : Finset Nat)
    (hres : bombLoop needed dim draws coords = some res) : res.card = needed := by
  induction draws generalizing coords with
  | nil =>
    simp only [bombLoop] at hres
    split at hres
    · cases hres; omega
    · cases hres
  | cons d rest ih =>
    simp only [bombLoop] at hres
    split at hres
    · cases hres; omega
    · next hlt =>
      refine ih _ ?_ hres
      have := Finset.card_insert_le (d % (dim * dim)) coords
      omega

theorem bombLoop_mem_lt (needed dim : Nat) (hdim : 0 < dim) (draws : List Nat)
    (coords : Finset Nat) (hc : ∀ x ∈ coords, x < dim * dim) (res : Finset Nat)
    (hres : bombLoop needed dim draws coords = some res) :
    ∀ x ∈ res, x < dim * dim := by
  induction draws generalizing coords with
  | nil =>
    simp only [bombLoop] at hres
    split at hres
    · cases hres; exact hc
    · cases hres
  | cons d rest ih =>
    simp only [bombLoop] at hres
    split at hres
    · cases hres; exact hc
    · refine ih _ ?_ hres
      intro x hx
      rcases Finset.mem_insert.mp hx with h | h
      · subst h
        exact Nat.mod_lt _ (Nat.mul_pos hdim hdim)
      · exact hc x h

theorem bombLoop_none (needed dim : Nat) (hdim : 0 < dim)
    (hgt : dim * dim < needed) (draws : List Nat) (coords : Finset Nat)
    (hc : ∀ x ∈ coords, x < dim * dim) :
    bombLoop needed dim draws coords = none := by
  have hcard : coords.card < needed := by
    have hsub : coords ⊆ Finset.range (dim * dim) := by
      intro x hx
      exact Finset.mem_range.mpr (hc x hx)
    have := Finset.card_le_card hsub
    simp only [Finset.card_range] at this
    omega
  induction draws generalizing coords with
  | nil =>
    simp [bombLoop, Nat.not_le.mpr hcard]
  | cons d rest ih =>
    simp only [bombLoop, Nat.not_le.mpr hcard, if_false]
    have hc2 : ∀ x ∈ insert (d % (dim * dim)) coords, x < dim * dim := by
      intro x hx
      rcases Finset.mem_insert.mp hx with h | h
      · subst h
        exact Nat.mod_lt _ (Nat.mul_pos hdim hdim)
      · exact hc x h
    have hcard2 : (insert (d % (dim * dim)) coords).card < needed := by
      have hsub : insert (d % (dim * dim)) coords ⊆ Finset.range (dim * dim) := by
        intro x hx
        exact Finset.mem_range.mpr (hc2 x hx)
      have := Finset.card_le_card hsub
      simp only [Finset.card_range] at this
      omega
    exact ih _ hc2 hcard2

/-- C1: handling Stop(game_id, abort=false) on a stored RUNNING session
with m players, stake s and turn index t stores FINISHED with
loser_idx = t, removes every participant id from the active-player index,
removes the session's directory entry, and invokes settlement exactly
once; that settlement lowers the loser's balance by s, raises each other
player's balance by s/(m-1), and records one PnL row per player. -/
theorem stop_no_abort_settles (gid gid2 : String) (players : List Player)
    (board : Board) (turn_idx : Nat) (sbs : ℚ) (locks : Option (List (Nat × Nat)))
    (bal : String → ℚ) (active : List (String × String))
    (hm : 1 < players.length) (ht : turn_idx < players.length)
    (hnd : (players.map Player.id).Nodup) :
    stopNoAbort gid (GameState.RUNNING gid2 players board turn_idx sbs locks) =
      (GameState.FINISHED gid turn_idx board players sbs,
       { broadcasts := [GameState.FINISHED gid turn_idx board players sbs]
         settlements := [⟨players.map Player.id, turn_idx, sbs,
                          winningAmount sbs players.length⟩]
         activeRemovals := players.map Player.id
         dirRemovals := [gid] }) ∧
    (∀ e ∈ applyRetain active (players.map Player.id), ¬ e.1 ∈ players.map Player.id) ∧
    (∀ (j : Nat) (hj : j < (players.map Player.id).length),
      (update_player_balances bal (players.map Player.id) turn_idx sbs
          (winningAmount sbs players.length)).1 ((players.map Player.id).get ⟨j, hj⟩) =
        bal ((players.map Player.id).get ⟨j, hj⟩) +
          (if j = turn_idx then -sbs else sbs / ((players.length - 1 : Nat) : ℚ))) ∧
    (update_player_balances bal (players.map Player.id) turn_idx sbs
        (winningAmount sbs players.length)).2.map PnlRow.user_id =
      players.map Player.id := by
  refine ⟨rfl, ?_, ?_, upbAux_rows _ _ _ _ _ _⟩
  · intro e he
    simp only [applyRetain, List.mem_filter, decide_not, Bool.not_eq_eq_eq_not,
      Bool.not_true, decide_eq_false_iff_not] at he
    exact he.2
  · intro j hj
    have h := upbAux_get turn_idx sbs (winningAmount sbs players.length)
      (players.map Player.id) hnd 0 bal j hj
    simpa [update_player_balances, winningAmount] using h

/-- C1 witness: in the two-player game stopped at turn 0 with stake 1,
settlement moves the loser's balance from 0 down by the stake. -/
theorem stop_no_abort_settles_witness :
    (update_player_balances balZero ([pl1, pl2].map Player.id) 0 1
        (winningAmount 1 2)).1 (([pl1, pl2].map Player.id).get ⟨0, by decide⟩) =
      balZero (([pl1, pl2].map Player.id).get ⟨0, by decide⟩) +
        (if 0 = 0 then -1 else 1 / ((([pl1, pl2] : List Player).length - 1 : Nat) : ℚ)) :=
  (stop_no_abort_settles "g" "g" [pl1, pl2] board0 0 1 none balZero []
    (by decide) (by decide) (by decide)).2.2.1 0 (by decide)

/-- C2 counterexample: on the one-cell board whose hazard was already
revealed (cell (0,0) in state HIT, hence non-HIDDEN), revealing again
returns HIT (`true`), not SAFE, falsifying the claim that a reveal of a
non-HIDDEN cell returns SAFE. -/
theorem mine_nonhidden_cex :
    cellAt cexBoardHit 0 0 = some CellState.Bomb ∧
    (cexBoardHit.mine 0 0).2 = true := by decide

/-- C2 amended: Board.mine never consults the current cell state — it
returns HIT exactly when the position is a hazard, and revealing the same
in-bounds cell twice produces the same grid and the same result as
revealing it once (so a second reveal of a REVEALED safe cell is SAFE
with the grid unchanged, but a second reveal of a HIT hazard cell is HIT
again). -/
theorem mine_ignores_cell_state (b : Board) (x y : Nat)
    (hx : x < b.n) (hy : y < b.n) :
    ((b.mine x y).2 = true ↔ x * b.n + y ∈ b.bomb_coordinates) ∧
    (b.mine x y).1.mine x y = b.mine x y := by
  by_cases h : x * b.n + y ∈ b.bomb_coordinates
  · constructor
    · simp [Board.mine, h]
    · simp [Board.mine, h, setCell_idem]
  · constructor
    · simp [Board.mine, h]
    · simp [Board.mine, h, setCell_idem]

/-- C2 amended witness: instantiated on the one-cell hazard board. -/
theorem mine_ignores_cell_state_witness :
    ((cexBoard.mine 0 0).2 = true ↔ 0 * cexBoard.n + 0 ∈ cexBoard.bomb_coordinates) ∧
    (cexBoard.mine 0 0).1.mine 0 0 = cexBoard.mine 0 0 :=
  mine_ignores_cell_state cexBoard 0 0 (by decide) (by decide)

/-- C3 (code bug): a declining RematchResponse on a REMATCH session
broadcasts one GameUpdate carrying ABORTED but never assigns the built
ABORTED value, so the stored session remains in REMATCH. -/
theorem rematch_decline_no_transition :
    rematchResponse "2" false sRem =
      (sRem, { broadcasts := [GameState.ABORTED "g"] }) := by
  rfl

/-- C4: a MakeMove on a RUNNING session that reveals a non-hazard cell
keeps the session RUNNING with locks cleared and every field except the
board (in particular turn_idx, players and the stake) unchanged, and
broadcasts exactly that state; the turn index is advanced only by
LockComplete, which performs the modular increment. -/
theorem makeMove_safe_frame (gid gid2 : String) (x y : Nat) (players : List Player)
    (board : Board) (turn_idx : Nat) (sbs : ℚ) (locks : Option (List (Nat × Nat)))
    (hsafe : ¬ x * board.n + y ∈ board.bomb_coordinates) :
    makeMove gid x y (GameState.RUNNING gid2 players board turn_idx sbs locks) =
      (GameState.RUNNING gid2 players (board.mine x y).1 turn_idx sbs none,
       { broadcasts :=
           [GameState.RUNNING gid2 players (board.mine x y).1 turn_idx sbs none] }) ∧
    (board.mine x y).2 = false ∧
    (lockComplete
        (GameState.RUNNING gid2 players (board.mine x y).1 turn_idx sbs none)).1 =
      GameState.RUNNING gid2 players (board.mine x y).1
        ((turn_idx + 1) % players.length) sbs none := by
  have hres : (board.mine x y).2 = false := by simp [Board.mine, hsafe]
  refine ⟨?_, hres, rfl⟩
  simp [makeMove, hres]

/-- C4 witness: the safe reveal of cell (0,0) on the sample board. -/
theorem makeMove_safe_frame_witness :
    makeMove "g" 0 0 (GameState.RUNNING "g" [pl1, pl2] board0 0 1 (some [(0, 1)])) =
      (GameState.RUNNING "g" [pl1, pl2] (board0.mine 0 0).1 0 1 none,
       { broadcasts :=
           [GameState.RUNNING "g" [pl1, pl2] (board0.mine 0 0).1 0 1 none] }) :=
  (makeMove_safe_frame "g" "g" 0 0 [pl1, pl2] board0 0 1 (some [(0, 1)])
    (by decide)).1

/-- C5: in every session reachable from a fresh WAITING session (one
creator on the roster, still below the roster target m) the RUNNING
variant always satisfies turn_idx < len(players) and len(players) = m;
a join transitions WAITING to RUNNING with turn_idx = 0 exactly when the
new roster reaches m; and LockComplete advances the turn index by the
modular increment. -/
theorem running_session_invariant :
    (∀ (gid : String) (creator : Player) (board : Board) (sbs : ℚ) (m : Nat)
       (s : GameState),
       1 < m →
       Reach (GameState.WAITING gid creator board sbs m [creator]) s →
       ∀ gid2 players board2 turn_idx sbs2 locks,
         s = GameState.RUNNING gid2 players board2 turn_idx sbs2 locks →
         turn_idx < players.length ∧ players.length = m) ∧
    (∀ (gid : String) (creator p : Player) (board : Board) (sbs : ℚ) (m : Nat)
       (players : List Player),
       ((joinGame p (GameState.WAITING gid creator board sbs m players)).1.isRunning
           = true ↔ m ≤ (players ++ [p]).length) ∧
       (m ≤ (players ++ [p]).length →
         (joinGame p (GameState.WAITING gid creator board sbs m players)).1 =
           GameState.RUNNING gid (players ++ [p]) board 0 sbs none)) ∧
    (∀ (gid : String) (players : List Player) (board : Board) (turn_idx : Nat)
       (sbs : ℚ) (locks : Option (List (Nat × Nat))),
       (lockComplete (GameState.RUNNING gid players board turn_idx sbs locks)).1 =
         GameState.RUNNING gid players board ((turn_idx + 1) % players.length)
           sbs locks) := by
  refine ⟨?_, ?_, fun _ _ _ _ _ _ => rfl⟩
  · intro gid c b q m s hm hreach gid2 players b2 t q2 l hs
    have hinv0 : Inv m (GameState.WAITING gid c b q m [c]) := by
      refine ⟨rfl, ?_⟩
      simpa using hm
    have hinv := reachInv hreach hinv0
    rw [hs] at hinv
    exact ⟨hinv.2, hinv.1⟩
  · intro gid c p b q m players
    constructor
    · by_cases hcase : (players ++ [p]).length < m
      · simp only [joinGame, hcase, if_true, GameState.isRunning]
        constructor
        · intro h; cases h
        · intro h; omega
      · simp only [joinGame, hcase, if_false, GameState.isRunning]
        constructor
        · intro _; omega
        · intro _; trivial
    · intro hle
      have hcase : ¬ (players ++ [p]).length < m := by omega
      simp only [joinGame]
      rw [if_neg hcase]

/-- C5 witness: the second joiner fills the two-player roster; the
resulting RUNNING session has turn index 0 within the roster bound. -/
theorem running_session_invariant_witness :
    0 < ([pl1, pl2] : List Player).length ∧
    ([pl1, pl2] : List Player).length = 2 :=
  running_session_invariant.1 "g" pl1 board0 1 2
    (joinGame pl2 (GameState.WAITING "g" pl1 board0 1 2 [pl1])).1 (by decide)
    (Relation.ReflTransGen.single (Step.join pl2 _))
    "g" [pl1, pl2] board0 0 1 none (by decide)

/-- C6 counterexample: Lock and LockComplete addressed to an existing
session in the FINISHED state send no Error reply at all and instead
emit a broadcast carrying the unchanged state, falsifying the claim that
every guard failure yields exactly one Error and no broadcast. -/
theorem lock_wrong_state_cex :
    (lockMove 0 0 sFin).2.errors = [] ∧
    (lockMove 0 0 sFin).2.broadcasts = [sFin] ∧
    (lockComplete sFin).2.errors = [] ∧
    (lockComplete sFin).2.broadcasts = [sFin] := by
  refine ⟨rfl, rfl, rfl, rfl⟩

/-- C6 amended: on an existing session that is not RUNNING, MakeMove
replies with exactly one Error to the sender, leaves the session
unchanged and broadcasts nothing, while Lock and LockComplete leave the
session unchanged but send no Error and broadcast one GameUpdate carrying
the unchanged state. -/
theorem wrong_state_guard (gid : String) (x y : Nat) (s : GameState)
    (h : s.isRunning = false) :
    makeMove gid x y s =
      (s, { errors := ["Cannot make move in current game state"] }) ∧
    lockMove x y s = (s, { broadcasts := [s] }) ∧
    lockComplete s = (s, { broadcasts := [s] }) := by
  cases s <;> simp_all [GameState.isRunning, makeMove, lockMove, lockComplete]

/-- C6 amended witness: instantiated on the sample FINISHED session. -/
theorem wrong_state_guard_witness :
    makeMove "g" 0 0 sFin =
      (sFin, { errors := ["Cannot make move in current game state"] }) ∧
    lockMove 0 0 sFin = (sFin, { broadcasts := [sFin] }) ∧
    lockComplete sFin = (sFin, { broadcasts := [sFin] }) :=
  wrong_state_guard "g" 0 0 sFin (by decide)

/-- C7 counterexample: registering the sample advertisement adds the game
id to the sets "region_matchmaking:rg:1:2" and "matchmaking:1:2" — the
global index key is built from stake and min_players only, with no
grid_size component — and writes no "grid_size" hash field. -/
theorem matchmaking_key_cex :
    saddKeys (register_game_session ad0) =
      ["region_matchmaking:rg:1:2", "matchmaking:1:2"] ∧
    (register_game_session ad0).any (cmdMentionsField "grid_size") = false := by
  decide

/-- C7 amended: register adds the game id to two index sets — the global
one keyed by stake and min_players only and a regional one keyed by
region, stake and min_players — and the stored session hash carries the
fields region, server_id, single_bet_size, min_players and
current_players, with no grid_size field anywhere. -/
theorem register_index_key_shape (s : SessionAd) :
    saddKeys (register_game_session s) =
      ["region_matchmaking:" ++ s.region ++ ":" ++ s.single_bet_size ++ ":" ++
         toString s.min_players,
       "matchmaking:" ++ s.single_bet_size ++ ":" ++ toString s.min_players] ∧
    (register_game_session s).any (cmdMentionsField "grid_size") = false ∧
    hashFieldNames (register_game_session s) =
      ["region", "server_id", "single_bet_size", "min_players",
       "current_players"] := by
  refine ⟨rfl, rfl, rfl⟩

/-- C8 counterexample: the update-player-count write issues a bare HSET
with no TTL command at all, and register's only TTL is 300 seconds, so
neither write sets a TTL of approximately 120 seconds. -/
theorem ttl_cex :
    expireSeconds (register_game_session ad0) = [300] ∧
    expireSeconds (update_player_count "g1" 2) = [] := by
  decide

/-- C8 amended: register sets a 300-second TTL on the session hash,
while update-player-count rewrites only the current_players field and
issues no TTL command. -/
theorem ttl_behavior (s : SessionAd) (gid : String) (n : Nat) :
    expireSeconds (register_game_session s) = [300] ∧
    expireSeconds (update_player_count gid n) = [] :=
  ⟨rfl, rfl⟩

/-- C9: an inbound GameUpdate frame carrying a FINISHED state is
rebroadcast on that game's fan-out, removes exactly the player ids listed
in the message from the active-player index and invokes settlement with
the loser_idx and stake carried in the message, all without reading or
writing the stored sessions map; the disconnect teardown builds its
synthetic FINISHED (loser = the departing player's roster index) from the
stored RUNNING session and injects it through this same inbound path. -/
theorem inbound_finished_update (games : List (String × GameState))
    (gid : String) (loser_idx : Nat) (board : Board) (players : List Player)
    (sbs : ℚ) (pid : String) (turn_idx : Nat) (locks : Option (List (Nat × Nat)))
    (ip : Nat × Player)
    (hfind : players.enum.find? (fun q => q.2.id = pid) = some ip) :
    gameUpdateArm games (GameState.FINISHED gid loser_idx board players sbs) =
      (games,
       { broadcasts := [GameState.FINISHED gid loser_idx board players sbs]
         settlements := [⟨players.map Player.id, loser_idx, sbs,
                          winningAmount sbs players.length⟩]
         activeRemovals := players.map Player.id }) ∧
    disconnectTeardownMsg pid
        (GameState.RUNNING gid players board turn_idx sbs locks) =
      some (GameState.FINISHED gid ip.1 board players sbs) := by
  refine ⟨rfl, ?_⟩
  simp [disconnectTeardownMsg, hfind]

/-- C9 witness: a forged FINISHED with loser 1 and the teardown of player
"2" from the sample two-player RUNNING session. -/
theorem inbound_finished_update_witness :
    gameUpdateArm [] (GameState.FINISHED "g" 1 board0 [pl1, pl2] 1) =
      ([], { broadcasts := [GameState.FINISHED "g" 1 board0 [pl1, pl2] 1]
             settlements := [⟨["1", "2"], 1, 1, winningAmount 1 2⟩]
             activeRemovals := ["1", "2"] }) ∧
    disconnectTeardownMsg "2" (GameState.RUNNING "g" [pl1, pl2] board0 0 1 none) =
      some (GameState.FINISHED "g" 1 board0 [pl1, pl2] 1) :=
  inbound_finished_update [] "g" 1 board0 [pl1, pl2] 1 "2" 0 none (1, pl2)
    (by decide)

/-- C10: whenever the bomb-sampling loop returns, it returns exactly
bombs_needed distinct positions, each below dimension squared, and for
bombs_needed > dimension² it can never return on any draw stream, so
board construction is well-defined only when the hazard count is at most
the number of cells. -/
theorem get_bomb_coords_spec (bombs_needed dimension : Nat) (draws : List Nat)
    (hdim : 0 < dimension) :
    (∀ res, get_bomb_coords bombs_needed dimension draws = some res →
       res.card = bombs_needed ∧ ∀ x ∈ res, x < dimension * dimension) ∧
    (dimension * dimension < bombs_needed →
       get_bomb_coords bombs_needed dimension draws = none) := by
  constructor
  · intro res hres
    refine ⟨bombLoop_card _ _ _ _ (by simp) _ hres, ?_⟩
    exact bombLoop_mem_lt _ _ hdim _ _ (by simp) _ hres
  · intro hgt
    exact bombLoop_none _ _ hdim hgt _ _ (by simp)

/-- C10 witness: two draws on a 2×2 board yield the two distinct
positions 0 and 1, both inside the 4-cell grid. -/
theorem get_bomb_coords_spec_witness :
    ({1, 0} : Finset Nat).card = 2 ∧ ∀ x ∈ ({1, 0} : Finset Nat), x < 2 * 2 :=
  (get_bomb_coords_spec 2 2 [0, 1] (by decide)).1 {1, 0} rfl

end Xplode
